import Mathlib

/-!
Verification of the sector-beta aggregation pipeline of `riskmanagement_tools`.

The embedding models the two beta scripts over exact rationals (`ℚ` stands for
the Python floats; the numeric identities proved here are the exact-arithmetic
content of the floating-point computations).  A pandas `NaN` cell is modelled
as `Option.none`; a pandas Series/DataFrame column is a `List`.

Sources embedded:
  - `beta-analysis-script.py` (`DamodaranBetaAnalyzer`): `calculate_levered_beta`,
    `get_sector_beta`, `analyze_sector`, `calculate_weighted_average_beta`,
    `compare_sectors`, and the percentage-column handling of `_parse_excel_file`.
  - `beta_settoriale.py`: `load_damodaran_betas`, `compute_average_beta` and its
    inner `agg_fun`.
-/

/-! ## Hamada re-levering (`beta-analysis-script.py`, lines 202-221) -/

/-- Embeds `DamodaranBetaAnalyzer.calculate_levered_beta`:
`return unlevered_beta * (1 + (1 - target_tax_rate) * target_de_ratio)`.
A total function: it never raises for numeric inputs. -/
def calculate_levered_beta (unlevered_beta target_de_ratio target_tax_rate : ℚ) : ℚ :=
  unlevered_beta * (1 + (1 - target_tax_rate) * target_de_ratio)

/-- Embeds the unlevering step documented in the script's methodology notes
(line 502): `Beta Unlevered: β / (1 + (1-T) × (D/E))`.  This is how the
`Unlevered beta` column of a record is derived from its levered beta. -/
def unlevered_from_levered (levered_beta de_ratio tax_rate : ℚ) : ℚ :=
  levered_beta / (1 + (1 - tax_rate) * de_ratio)

/-- The data model's BetaRecord (spec section 3): one observed row.  `none`
models a missing (NaN) cell. -/
structure BetaRecord where
  region : String
  industry : String
  levered_beta : Option ℚ
  unlevered_beta : Option ℚ
  debt_to_equity : Option ℚ
  tax_rate : Option ℚ
  firm_count : Option ℚ
  period : Option Int
deriving DecidableEq

/-! ## Means -/

/-- Mean of a list of present values; `none` on the empty list.  This is
pandas `Series.mean(skipna=True)` applied to the list of non-missing entries
(pandas returns `NaN` when nothing remains). -/
def simpleMean (l : List ℚ) : Option ℚ :=
  if l = [] then none else some (l.sum / l.length)

/-- Small helper: every element of a nonempty list is bounded above by some
member of the list. -/
theorem exists_upper_mem (l : List ℚ) (h : l ≠ []) :
    ∃ M ∈ l, ∀ x ∈ l, x ≤ M := by
  induction l with
  | nil => exact absurd rfl h
  | cons a t ih =>
    cases t with
    | nil => exact ⟨a, List.mem_singleton_self a, by simp⟩
    | cons b u =>
      obtain ⟨M, hM, hle⟩ := ih (by simp)
      by_cases hc : a ≤ M
      · exact ⟨M, List.mem_cons_of_mem a hM, by
          intro x hx
          rcases List.mem_cons.mp hx with h1 | h2
          · exact h1 ▸ hc
          · exact hle x h2⟩
      · refine ⟨a, List.mem_cons_self a _, ?_⟩
        intro x hx
        rcases List.mem_cons.mp hx with h1 | h2
        · exact h1 ▸ le_refl a
        · exact (hle x h2).trans (le_of_not_le hc)

/-- Small helper: every element of a nonempty list is bounded below by some
member of the list. -/
theorem exists_lower_mem (l : List ℚ) (h : l ≠ []) :
    ∃ m ∈ l, ∀ x ∈ l, m ≤ x := by
  obtain ⟨M, hM, hle⟩ := exists_upper_mem (l.map Neg.neg) (by simpa using h)
  obtain ⟨m, hm, rfl⟩ := List.mem_map.mp hM
  refine ⟨m, hm, fun x hx => ?_⟩
  have := hle (-x) (List.mem_map_of_mem Neg.neg hx)
  linarith

/-- The simple mean of a nonempty list lies between two of its members. -/
theorem simpleMean_bounds (l : List ℚ) (m : ℚ) (h : simpleMean l = some m) :
    ∃ bl ∈ l, bl ≤ m ∧ ∃ bu ∈ l, m ≤ bu := by
  unfold simpleMean at h
  split at h
  · exact absurd h (by simp)
  · rename_i hne
    obtain ⟨M, hMmem, hMle⟩ := exists_upper_mem l hne
    obtain ⟨mn, hmnmem, hmnle⟩ := exists_lower_mem l hne
    have hlen : 0 < (l.length : ℚ) := by
      have : 0 < l.length := List.length_pos.mpr hne
      exact_mod_cast this
    have hsum_ub : l.sum ≤ l.length * M := by
      have := List.sum_le_card_nsmul l M hMle
      simpa [nsmul_eq_mul] using this
    have hsum_lb : (l.length : ℚ) * mn ≤ l.sum := by
      have := List.card_nsmul_le_sum l mn hmnle
      simpa [nsmul_eq_mul] using this
    have hm : m = l.sum / l.length := by
      injection h with h'
      exact h'.symm
    refine ⟨mn, hmnmem, ?_, M, hMmem, ?_⟩
    · rw [hm, le_div_iff₀ hlen]
      linarith
    · rw [hm, div_le_iff₀ hlen]
      linarith

/-- Weighted-sum upper bound: with nonnegative weights, the weighted sum of
values each at most `B` is at most `B` times the total weight. -/
theorem weighted_sum_le (ps : List (ℚ × ℚ)) (B : ℚ)
    (hw : ∀ p ∈ ps, 0 ≤ p.2) (hb : ∀ p ∈ ps, p.1 ≤ B) :
    (ps.map (fun p => p.1 * p.2)).sum ≤ B * (ps.map Prod.snd).sum := by
  induction ps with
  | nil => simp
  | cons a t ih =>
    have ha2 : 0 ≤ a.2 := hw a (List.mem_cons_self a t)
    have ha1 : a.1 ≤ B := hb a (List.mem_cons_self a t)
    have ht := ih (fun p hp => hw p (List.mem_cons_of_mem a hp))
      (fun p hp => hb p (List.mem_cons_of_mem a hp))
    simp only [List.map_cons, List.sum_cons]
    have : a.1 * a.2 ≤ B * a.2 := mul_le_mul_of_nonneg_right ha1 ha2
    linarith [ht, this, mul_add B a.2 ((t.map Prod.snd).sum)]

/-- Weighted-sum lower bound, dual of `weighted_sum_le`. -/
theorem le_weighted_sum (ps : List (ℚ × ℚ)) (b : ℚ)
    (hw : ∀ p ∈ ps, 0 ≤ p.2) (hb : ∀ p ∈ ps, b ≤ p.1) :
    b * (ps.map Prod.snd).sum ≤ (ps.map (fun p => p.1 * p.2)).sum := by
  induction ps with
  | nil => simp
  | cons a t ih =>
    have ha2 : 0 ≤ a.2 := hw a (List.mem_cons_self a t)
    have ha1 : b ≤ a.1 := hb a (List.mem_cons_self a t)
    have ht := ih (fun p hp => hw p (List.mem_cons_of_mem a hp))
      (fun p hp => hb p (List.mem_cons_of_mem a hp))
    simp only [List.map_cons, List.sum_cons]
    have : b * a.2 ≤ a.1 * a.2 := mul_le_mul_of_nonneg_right ha1 ha2
    linarith [ht, this, mul_add b a.2 ((t.map Prod.snd).sum)]

/-- The weighted mean of pairs (value, weight) with nonnegative weights and a
positive total weight lies between two of the values. -/
theorem weighted_mean_bounds (ps : List (ℚ × ℚ)) (m : ℚ)
    (hw : ∀ p ∈ ps, 0 ≤ p.2) (hpos : 0 < (ps.map Prod.snd).sum)
    (hm : m = (ps.map (fun p => p.1 * p.2)).sum / (ps.map Prod.snd).sum) :
    ∃ bl ∈ ps.map Prod.fst, bl ≤ m ∧ ∃ bu ∈ ps.map Prod.fst, m ≤ bu := by
  have hne : ps ≠ [] := by
    intro h
    rw [h] at hpos
    simp at hpos
  have hne' : ps.map Prod.fst ≠ [] := by simpa using hne
  obtain ⟨M, hMmem, hMle⟩ := exists_upper_mem (ps.map Prod.fst) hne'
  obtain ⟨mn, hmnmem, hmnle⟩ := exists_lower_mem (ps.map Prod.fst) hne'
  have hub : (ps.map (fun p => p.1 * p.2)).sum ≤ M * (ps.map Prod.snd).sum :=
    weighted_sum_le ps M hw
      (fun p hp => hMle p.1 (List.mem_map_of_mem Prod.fst hp))
  have hlb : mn * (ps.map Prod.snd).sum ≤ (ps.map (fun p => p.1 * p.2)).sum :=
    le_weighted_sum ps mn hw
      (fun p hp => hmnle p.1 (List.mem_map_of_mem Prod.fst hp))
  refine ⟨mn, hmnmem, ?_, M, hMmem, ?_⟩
  · rw [hm, le_div_iff₀ hpos]
    linarith
  · rw [hm, div_le_iff₀ hpos]
    linarith

/-! ## `beta_settoriale.py`: ingestion and aggregation -/

/-- One raw spreadsheet row as handed to `load_damodaran_betas` after the
out-of-scope fetch (`fetch_excel`).  `industry = none` models a NaN industry
cell; the numeric cells are given after the `pd.to_numeric(..., errors =
"coerce")` coercion, with `none` for NaN / non-numeric tokens. -/
structure RawRow where
  industry : Option String
  beta : Option ℚ
  firms : Option ℚ
deriving DecidableEq

/-- One fetched table (the result of `fetch_excel` for a (geo, year) pair):
which of the columns used by `load_damodaran_betas` are present, plus the rows.
-/
structure RawFrame where
  hasIndustryCol : Bool
  hasBetaCol : Bool
  hasFirmsCol : Bool
  rows : List RawRow
deriving DecidableEq

/-- One cleaned record produced by `load_damodaran_betas` (the columns of its
`return df[[...]]` selection). -/
structure SettRecord where
  industry : String
  beta : Option ℚ
  firms : Option ℚ
  year : Int
  geography : String
deriving DecidableEq

/-- Python `str(x)` for a possibly-NaN cell: NaN prints as `"nan"` (this is the
`astype(str)` behaviour used on the `Industry Name` column). -/
def industryStr (o : Option String) : String := o.getD "nan"

/-- Case-insensitive character list of a string, modelling `str.lower()`. -/
def lowerChars (s : String) : List Char := s.data.map Char.toLower

/-- Bool test that `pat` occurs as a contiguous sublist of `hay`, modelling the
substring test of `str.contains` on a plain (non-regex-special) pattern. -/
def subList (pat : List Char) : List Char → Bool
  | [] => pat.isEmpty
  | c :: rest => pat.isPrefixOf (c :: rest) || subList pat rest

/-- Embeds the total-market filter of `load_damodaran_betas`:
`df["Industry Name"].astype(str).str.lower().str.contains("total market")`. -/
def containsTotalMarket (ind : Option String) : Bool :=
  subList "total market".data (lowerChars (industryStr ind))

/-- Embeds `load_damodaran_betas(geo, year)` of `beta_settoriale.py` (lines
39-68), applied to an already-fetched frame (the network fetch is the
out-of-scope collaborator).  The `for col in ["Industry Name", "Beta"]` loop
raises a `KeyError` (wrapped into `RuntimeError`) on the first missing column;
rows whose industry contains "total market" (case-insensitively) are removed;
`Year` and `Geography` are attached; and the final `df[[...]]` column selection
raises a `KeyError` (also wrapped) when `Number of firms` is absent. -/
def load_damodaran_betas (geo : String) (year : Int) (f : RawFrame) :
    Except String (List SettRecord) :=
  if f.hasIndustryCol = false then
    .error "Colonna Industry Name non trovata"
  else if f.hasBetaCol = false then
    .error "Colonna Beta non trovata"
  else if f.hasFirmsCol = false then
    .error "KeyError: Number of firms"
  else
    .ok ((f.rows.filter (fun r => !containsTotalMarket r.industry)).map
      (fun r => { industry := industryStr r.industry, beta := r.beta,
                  firms := r.firms, year := year, geography := geo }))

/-- The non-missing levered betas of a group (`g["Beta"]` with NaN dropped). -/
def settBetas (g : List SettRecord) : List ℚ := g.filterMap (·.beta)

/-- The `fillna(0)` firm-count weight of one record. -/
def fillnaWeight (o : Option ℚ) : ℚ := o.getD 0

/-- The `w = g["Number of firms"].fillna(0)` series of `agg_fun`. -/
def settWeights (g : List SettRecord) : List ℚ :=
  g.map (fun r => fillnaWeight r.firms)

/-- The (beta, weight) pairs of the rows whose beta is present: the terms that
survive `skipna=True` in `(b * w).sum` and the weights kept by
`w.where(~b.isna(), 0)`. -/
def settPairs (g : List SettRecord) : List (ℚ × ℚ) :=
  g.filterMap (fun r => r.beta.map (fun b => (b, fillnaWeight r.firms)))

/-- Embeds the inner `agg_fun` of `compute_average_beta` (lines 88-103), the
`AvgLeveredBeta` field only.  With `weight_by_firms`:
`w = g["Number of firms"].fillna(0)`; if `w.sum() > 0` the value is
`(b * w).sum(skipna=True) / w.where(~b.isna(), 0).sum()` — the numerator sums
`beta * weight` over rows with non-missing beta, the denominator sums the
weights of those same rows; a zero denominator gives pandas `NaN`/`inf`
(0/0 or x/0, not an exception), modelled as `none`.  Otherwise the simple
`g["Beta"].mean(skipna=True)`. -/
def agg_fun (weight_by_firms : Bool) (g : List SettRecord) : Option ℚ :=
  if weight_by_firms = false then
    simpleMean (settBetas g)
  else if 0 < (settWeights g).sum then
    if ((settPairs g).map Prod.snd).sum = 0 then none
    else some (((settPairs g).map (fun p => p.1 * p.2)).sum /
      ((settPairs g).map Prod.snd).sum)
  else
    simpleMean (settBetas g)

/-- One output row of `compute_average_beta` (start/end year columns are
constants of the call and omitted here). -/
structure SettOutRow where
  geography : String
  industry : String
  avgLeveredBeta : Option ℚ
  yearsObs : Nat
  avgFirms : Option ℚ
deriving DecidableEq

/-- Lexicographic key order used by `sort_values(["Geography", "Industry Name"])`.
-/
def keyLE (a b : String × String) : Prop :=
  a.1 < b.1 ∨ (a.1 = b.1 ∧ a.2 ≤ b.2)

instance : DecidableRel keyLE := fun a b => by
  unfold keyLE
  infer_instance

/-- The group of records sharing one `(Geography, Industry Name)` key. -/
def groupOf (rs : List SettRecord) (k : String × String) : List SettRecord :=
  rs.filter (fun r => r.geography = k.1 ∧ r.industry = k.2)

/-- Embeds the `groupby(["Geography", "Industry Name"]).apply(agg_fun)` plus
the final `sort_values` of `compute_average_beta` (lines 105-113): one output
row per distinct key, keys sorted ascending. -/
def aggregateSett (weight_by_firms : Bool) (rs : List SettRecord) : List SettOutRow :=
  (((rs.map (fun r => (r.geography, r.industry))).dedup).insertionSort keyLE).map
    (fun k =>
      let g := groupOf rs k
      { geography := k.1, industry := k.2,
        avgLeveredBeta := agg_fun weight_by_firms g,
        yearsObs := ((g.map (·.year)).dedup).length,
        avgFirms := simpleMean (g.filterMap (·.firms)) })

/-- The `try/except RuntimeError: continue` harvesting of one (geo, year)
dataset inside `compute_average_beta`: a failed load contributes nothing. -/
def loadedFrame (x : String × Int × RawFrame) : Option (List SettRecord) :=
  (load_damodaran_betas x.1 x.2.1 x.2.2).toOption

/-- Embeds `compute_average_beta` (lines 70-113) applied to the fetched frames
of the requested (geo, year) grid: load each dataset, skipping the ones whose
load raises (printed as a warning in the source); if no frame loaded, raise
`RuntimeError("Nessun dataset caricato. Controlla geografie e anni.")`;
otherwise concatenate and aggregate. -/
def compute_average_beta (weight_by_firms : Bool)
    (inputs : List (String × Int × RawFrame)) : Except String (List SettOutRow) :=
  let frames := inputs.filterMap loadedFrame
  if frames = [] then
    .error "Nessun dataset caricato. Controlla geografie e anni."
  else
    .ok (aggregateSett weight_by_firms frames.flatten)

/-! ## `beta-analysis-script.py`: query, analysis, weighted average, comparison -/

/-- One cleaned dataset row of `DamodaranBetaAnalyzer.datasets[region]` (the
columns read by `analyze_sector`); `none` models a NaN cell. -/
structure SectorRow where
  industry : String
  region : String
  firms : Option ℚ
  beta : Option ℚ
  de : Option ℚ
  tax : Option ℚ
  unlevered : Option ℚ
  unleveredCash : Option ℚ
deriving DecidableEq

/-- The loaded datasets: region name to cleaned rows, modelling
`self.datasets`. -/
abbrev Datasets := List (String × List SectorRow)

/-- Embeds the row test of `get_sector_beta`: exact match compares
`str.lower()` forms; substring match is `str.contains(sector_name,
case=False)` for a pattern without regex metacharacters. -/
def matchesQuery (exact : Bool) (query industry : String) : Bool :=
  if exact then lowerChars industry = lowerChars query
  else subList (lowerChars query) (lowerChars industry)

/-- Embeds `get_sector_beta` (lines 155-200) with `regions=None` (search every
loaded dataset): per region, keep the matching rows; concatenate.  No match in
any region yields the empty frame `pd.DataFrame()` (a return value, not a
raised error). -/
def get_sector_beta (datasets : Datasets) (query : String) (exact : Bool) :
    List SectorRow :=
  (datasets.map (fun p => p.2.filter (fun r => matchesQuery exact query r.industry))).flatten

/-- One row of the analysis frame built by `analyze_sector`. -/
structure AnalysisRow where
  sector : String
  region : String
  firms : Option ℚ
  beta_levered_original : Option ℚ
  de_original : Option ℚ
  tax_original : Option ℚ
  beta_unlevered : Option ℚ
  beta_unlevered_cash : Option ℚ
  beta_levered_target : Option ℚ
  de_target : Option ℚ
  tax_target : Option ℚ
deriving DecidableEq

/-- Embeds the per-row body of `analyze_sector` (lines 249-274).  When both
target parameters are supplied, the unlevered beta used is the cash-adjusted
one with the plain one as fallback (`row.get('Unlevered beta corrected for
cash', row.get('Unlevered beta', nan))`; a missing value is treated like an
absent column here), and the target fields are filled only when that value is
non-missing. -/
def analysisRowOf (target : Option (ℚ × ℚ)) (r : SectorRow) : AnalysisRow :=
  let base : AnalysisRow :=
    { sector := r.industry, region := r.region, firms := r.firms,
      beta_levered_original := r.beta, de_original := r.de,
      tax_original := r.tax, beta_unlevered := r.unlevered,
      beta_unlevered_cash := r.unleveredCash,
      beta_levered_target := none, de_target := none, tax_target := none }
  match target with
  | none => base
  | some (d, t) =>
    match r.unleveredCash.or r.unlevered with
    | none => base
    | some u =>
      { base with
        beta_levered_target := some (calculate_levered_beta u d t),
        de_target := some d, tax_target := some t }

/-- Embeds `analyze_sector` (lines 223-276): query the sector (substring,
case-insensitive, all loaded regions), then build one analysis row per match.
`target = some (d, t)` is the `target_de_ratio is not None and target_tax_rate
is not None` case. -/
def analyze_sector (datasets : Datasets) (query : String)
    (target : Option (ℚ × ℚ)) : List AnalysisRow :=
  (get_sector_beta datasets query false).map (analysisRowOf target)

/-- Embeds `sector_analysis[[beta_col, weight_col]].dropna()`: keep the rows
where both the beta and the weight cell are present. -/
def dropna2 (rows : List (Option ℚ × Option ℚ)) : List (ℚ × ℚ) :=
  rows.filterMap (fun p =>
    match p with
    | (some b, some w) => some (b, w)
    | _ => none)

/-- Core of `calculate_weighted_average_beta` (lines 295-318) on (beta, weight)
cell pairs: an empty input frame or an empty `dropna` result gives `NaN`; a
positive total weight gives `np.average(betas, weights=weights)`; otherwise the
simple `mean()` of the kept betas. -/
def weighted_average_core (rows : List (Option ℚ × Option ℚ)) : Option ℚ :=
  if dropna2 rows = [] then none
  else if 0 < ((dropna2 rows).map Prod.snd).sum then
    some (((dropna2 rows).map (fun p => p.1 * p.2)).sum /
      ((dropna2 rows).map Prod.snd).sum)
  else
    simpleMean ((dropna2 rows).map Prod.fst)

/-- Embeds the beta-column choice of `calculate_weighted_average_beta` (lines
299-303) for `beta_col=None`: use `Beta_Levered_Target` when that column exists
with some non-missing value (it exists exactly when some row set it), else
`Beta_Levered_Original`. -/
def chosenBeta (analysis : List AnalysisRow) (r : AnalysisRow) : Option ℚ :=
  if analysis.any (fun a => a.beta_levered_target.isSome) then
    r.beta_levered_target
  else
    r.beta_levered_original

/-- Embeds `calculate_weighted_average_beta(sector_analysis)` with the default
`weight_col='Number_of_Firms'` and `beta_col=None`. -/
def calculate_weighted_average_beta (analysis : List AnalysisRow) : Option ℚ :=
  weighted_average_core (analysis.map (fun r => (chosenBeta analysis r, r.firms)))

/-- One row of the `compare_sectors` output frame. -/
structure CompRow where
  sector : String
  avg_beta : Option ℚ
  regions_count : Nat
  total_firms : ℚ
deriving DecidableEq

/-- The summary row `compare_sectors` appends for one queried sector name, or
`none` when `analysis.empty` (the silent omission).  `Total_Firms` is the
pandas `.sum()` of the firm column, which skips NaN and is 0 on all-NaN. -/
def summaryRow (datasets : Datasets) (target : Option (ℚ × ℚ)) (s : String) :
    Option CompRow :=
  let analysis := analyze_sector datasets s target
  if analysis = [] then none
  else
    some { sector := s,
           avg_beta := calculate_weighted_average_beta analysis,
           regions_count := analysis.length,
           total_firms := (analysis.map (fun r => fillnaWeight r.firms)).sum }

/-- Bool form of the `sort_values('Average_Levered_Beta', ascending=False)`
order: descending on the beta, with missing values placed last
(`na_position='last'`). -/
def compDescB (a b : CompRow) : Bool :=
  match a.avg_beta, b.avg_beta with
  | some x, some y => decide (y ≤ x)
  | some _, none => true
  | none, some _ => false
  | none, none => true

/-- Propositional form of the comparison order. -/
def compDesc (a b : CompRow) : Prop := compDescB a b = true

instance : DecidableRel compDesc := fun a b =>
  inferInstanceAs (Decidable (compDescB a b = true))

instance : IsTotal CompRow compDesc := by
  constructor
  intro a b
  unfold compDesc compDescB
  rcases a.avg_beta with _ | x <;> rcases b.avg_beta with _ | y <;> simp
  exact le_total y x

instance : IsTrans CompRow compDesc := by
  constructor
  intro a b c hab hbc
  unfold compDesc compDescB at *
  cases ha : a.avg_beta <;> cases hb : b.avg_beta <;> cases hc : c.avg_beta <;>
    simp only [ha, hb, hc, decide_eq_true_eq] at hab hbc ⊢ <;>
    first
    | trivial
    | linarith

/-- Embeds `compare_sectors` (lines 375-414): one summary row per queried
sector whose analysis is non-empty, then
`pd.DataFrame(results).sort_values('Average_Levered_Beta', ascending=False)`.
When no sector produced a row, the frame has no columns and `sort_values`
raises a `KeyError` for the missing column. -/
def compare_sectors (datasets : Datasets) (target : Option (ℚ × ℚ))
    (sector_names : List String) : Except String (List CompRow) :=
  let rows := sector_names.filterMap (summaryRow datasets target)
  if rows = [] then
    .error "KeyError: Average_Levered_Beta"
  else
    .ok (rows.insertionSort compDesc)

/-! ## `_parse_excel_file` percentage handling (`beta-analysis-script.py`,
lines 132-145) -/

/-- A raw percentage-like column as read from the spreadsheet.  `numeric cs`
is a column whose dtype is already numeric (`none` = NaN).  `textual cs` is an
object-dtype column: each present cell is the numeral written in the text
together with whether it carried a trailing percent sign (`some (q, true)`
models the text `"q%"`, `some (q, false)` the text `"q"`; `none` models NaN or
a non-numeric token, which `pd.to_numeric(errors='coerce')` turns into NaN). -/
inductive PctColumn where
  | numeric (cells : List (Option ℚ))
  | textual (cells : List (Option (ℚ × Bool)))
deriving DecidableEq

/-- The `astype(str).str.rstrip('%')` plus `pd.to_numeric(errors='coerce')`
step: on an object column it drops the percent suffix and keeps the numeral as
written (no division); a numeric column passes through `to_numeric` unchanged.
-/
def stripAndCoerce : PctColumn → List (Option ℚ)
  | .numeric cs => cs
  | .textual cs => cs.map (Option.map Prod.fst)

/-- Pandas `Series.max()` with default `skipna`: the maximum of the present
values, `none` (NaN) when none are present. -/
def colMax (vs : List (Option ℚ)) : Option ℚ :=
  match vs.filterMap id with
  | [] => none
  | x :: xs => some (xs.foldl max x)

/-- Embeds the per-column body of the `for col in numeric_cols` loop of
`_parse_excel_file` for the percentage-like columns (`D/E Ratio`,
`Effective Tax rate`, `Cash/Firm value`): strip-and-coerce, then
`if df[col].max() > 1: df[col] = df[col] / 100`.  A pandas comparison of NaN
with 1 is false, so an all-missing column is left untouched. -/
def parse_percent_column (c : PctColumn) : List (Option ℚ) :=
  let vs := stripAndCoerce c
  match colMax vs with
  | some m => if 1 < m then vs.map (Option.map (· / 100)) else vs
  | none => vs

/-- Modelled from the spec's words (section 4.1), for comparison with
`parse_percent_column`: "if a column's values are textual and suffixed with a
percent sign, strip the suffix and divide by 100; if a column's maximum
numeric value exceeds 1 even after that, divide by 100 again". -/
def spec_percent_column (c : PctColumn) : List (Option ℚ) :=
  let vs : List (Option ℚ) :=
    match c with
    | .numeric cs => cs
    | .textual cs =>
        cs.map (Option.map (fun p => if p.2 then p.1 / 100 else p.1))
  match colMax vs with
  | some m => if 1 < m then vs.map (Option.map (· / 100)) else vs
  | none => vs

/-! ## Claim theorems -/

/-- C2: the re-levering operation is the pure Hamada function: it returns
`unlevered_beta * (1 + (1 - tax_rate) * debt_to_equity)` for all numeric
inputs (it is a total function, so it never raises); for
`unlevered_beta = 0.8`, `debt_to_equity = 0.5`, `tax_rate = 0.25` it returns
`1.1`; and for `debt_to_equity = 0` it returns `unlevered_beta` unchanged. -/
theorem c2_hamada_pure_function :
    (∀ u d t : ℚ, calculate_levered_beta u d t = u * (1 + (1 - t) * d)) ∧
    calculate_levered_beta (8/10) (1/2) (1/4) = 11/10 ∧
    (∀ u t : ℚ, calculate_levered_beta u 0 t = u) := by
  refine ⟨fun u d t => rfl, by norm_num [calculate_levered_beta],
    fun u t => by simp [calculate_levered_beta]⟩

/-- C5: for every BetaRecord with non-missing `unlevered_beta`,
`debt_to_equity` and `tax_rate` whose `unlevered_beta` is derived from its
`levered_beta` by the documented unlevering formula (methodology notes, line
502), re-levering with the record's own original `debt_to_equity` and
`tax_rate` reproduces the original `levered_beta` exactly (hence within any
floating-point tolerance), provided the Hamada factor is nonzero. -/
theorem c5_relever_identity_roundtrip (r : BetaRecord) (u d t b : ℚ)
    (hu : r.unlevered_beta = some u) (hd : r.debt_to_equity = some d)
    (ht : r.tax_rate = some t) (hb : r.levered_beta = some b)
    (hcons : u = unlevered_from_levered b d t)
    (hden : 1 + (1 - t) * d ≠ 0) :
    calculate_levered_beta u d t = b := by
  subst hcons
  unfold calculate_levered_beta unlevered_from_levered
  field_simp

/-- Witness for C5 at a concrete record: levered beta 0.9, D/E 0.5, tax 0.25.
-/
theorem c5_relever_identity_roundtrip_witness :
    calculate_levered_beta (unlevered_from_levered (9/10) (1/2) (1/4))
      (1/2) (1/4) = 9/10 :=
  c5_relever_identity_roundtrip
    { region := "US", industry := "Banking",
      levered_beta := some (9/10),
      unlevered_beta := some (unlevered_from_levered (9/10) (1/2) (1/4)),
      debt_to_equity := some (1/2), tax_rate := some (1/4),
      firm_count := some 10, period := some 2025 }
    (unlevered_from_levered (9/10) (1/2) (1/4)) (1/2) (1/4) (9/10)
    rfl rfl rfl rfl rfl (by norm_num)

/-- C10: when the load of every requested (geo, year) dataset fails,
`compute_average_beta` raises `RuntimeError` instead of returning an empty
result: the partial-success model does not extend to total failure. -/
theorem c10_total_failure_raises (weight_by_firms : Bool)
    (inputs : List (String × Int × RawFrame))
    (h : ∀ x ∈ inputs, ∃ e, load_damodaran_betas x.1 x.2.1 x.2.2 = .error e) :
    compute_average_beta weight_by_firms inputs
      = .error "Nessun dataset caricato. Controlla geografie e anni." := by
  have hnil : inputs.filterMap loadedFrame = [] := by
    rw [List.filterMap_eq_nil_iff]
    intro x hx
    obtain ⟨e, he⟩ := h x hx
    unfold loadedFrame
    rw [he]
    rfl
  unfold compute_average_beta
  rw [hnil]
  rfl

/-- Witness for C10: a single dataset whose frame lacks the Beta column. -/
theorem c10_total_failure_raises_witness :
    compute_average_beta true
      [("US", 2023,
        { hasIndustryCol := true, hasBetaCol := false, hasFirmsCol := true,
          rows := [] })]
      = .error "Nessun dataset caricato. Controlla geografie e anni." :=
  c10_total_failure_raises true _
    (by
      intro x hx
      simp only [List.mem_singleton] at hx
      subst hx
      exact ⟨"Colonna Beta non trovata", rfl⟩)

/-- C3: an ingestion failure of one dataset (for example a frame missing a
required column) removes only that dataset: `compute_average_beta` over a list
containing the failing dataset equals the computation without it, and as long
as at least one dataset loads, the computation succeeds (returns `.ok`). -/
theorem c3_partial_success (weight_by_firms : Bool)
    (pre post : List (String × Int × RawFrame))
    (bad : String × Int × RawFrame) (e : String)
    (hbad : load_damodaran_betas bad.1 bad.2.1 bad.2.2 = .error e)
    (hok : (pre ++ post).filterMap loadedFrame ≠ []) :
    compute_average_beta weight_by_firms (pre ++ bad :: post)
        = compute_average_beta weight_by_firms (pre ++ post) ∧
    ∃ out, compute_average_beta weight_by_firms (pre ++ post) = .ok out := by
  have hnone : loadedFrame bad = none := by
    unfold loadedFrame
    rw [hbad]
    rfl
  have heq : (pre ++ bad :: post).filterMap loadedFrame
      = (pre ++ post).filterMap loadedFrame := by
    simp [List.filterMap_append, List.filterMap_cons, hnone]
  constructor
  · unfold compute_average_beta
    rw [heq]
  · unfold compute_average_beta
    rw [if_neg hok]
    exact ⟨_, rfl⟩

/-- A well-formed one-row frame used by the C3 witness. -/
def goodFrameC3 : RawFrame :=
  { hasIndustryCol := true, hasBetaCol := true, hasFirmsCol := true,
    rows := [{ industry := some "Banking", beta := some 1, firms := some 10 }] }

/-- A frame missing the Beta column used by the C3 witness. -/
def badFrameC3 : RawFrame :=
  { hasIndustryCol := true, hasBetaCol := false, hasFirmsCol := true,
    rows := [{ industry := some "Banking", beta := none, firms := some 10 }] }

/-- Witness for C3: one good dataset plus one dataset missing the Beta
column; the failing dataset is skipped and aggregation succeeds. -/
theorem c3_partial_success_witness :
    compute_average_beta true
        [("US", 2023, goodFrameC3), ("Europe", 2023, badFrameC3)]
      = compute_average_beta true [("US", 2023, goodFrameC3)] ∧
    ∃ out, compute_average_beta true [("US", 2023, goodFrameC3)] = .ok out := by
  have := c3_partial_success true [("US", 2023, goodFrameC3)] []
    ("Europe", 2023, badFrameC3) "Colonna Beta non trovata" rfl
    (by decide)
  simpa using this

/-- C7: a sector query that matches no row of any loaded dataset returns the
empty frame from `get_sector_beta`, and `analyze_sector` in turn returns the
empty frame — a value, not a raised error (both are total functions). -/
theorem c7_no_match_yields_empty (datasets : Datasets) (query : String)
    (h : ∀ p ∈ datasets, ∀ r ∈ p.2, matchesQuery false query r.industry = false) :
    get_sector_beta datasets query false = [] ∧
    analyze_sector datasets query none = [] := by
  have hg : get_sector_beta datasets query false = [] := by
    unfold get_sector_beta
    rw [List.flatten_eq_nil_iff]
    intro l hl
    rw [List.mem_map] at hl
    obtain ⟨p, hp, rfl⟩ := hl
    rw [List.filter_eq_nil_iff]
    intro r hr
    simp [h p hp r hr]
  exact ⟨hg, by unfold analyze_sector; rw [hg]; rfl⟩

/-- A one-region, one-row dataset collection used by the C7 witness. -/
def datasetsC7 : Datasets :=
  [("USA",
    [{ industry := "Banking", region := "USA", firms := some 10,
       beta := some 1, de := some (1/2), tax := some (1/4),
       unlevered := some (4/5), unleveredCash := none }])]

/-- Witness for C7: querying "Quantum" against a dataset holding only
"Banking" returns the empty result. -/
theorem c7_no_match_yields_empty_witness :
    get_sector_beta datasetsC7 "Quantum" false = [] ∧
    analyze_sector datasetsC7 "Quantum" none = [] :=
  c7_no_match_yields_empty datasetsC7 "Quantum" (by decide)

/-- A one-region, one-row dataset collection used by the C9 theorem. -/
def datasetsC9 : Datasets :=
  [("Europe",
    [{ industry := "Steel", region := "Europe", firms := some 25,
       beta := some (6/5), de := some (3/10), tax := some (1/5),
       unlevered := some 1, unleveredCash := some (11/10) }])]

/-- C9: there is an input — a non-empty list of industry names none of which
matches any loaded record — on which `compare_sectors` raises (the `KeyError`
of sorting an empty frame by an absent column) instead of returning an empty
result table. -/
theorem c9_all_miss_comparison_raises :
    compare_sectors datasetsC9 none ["Quantum Mining", "Zeppelin"]
      = .error "KeyError: Average_Levered_Beta" := by
  rfl

/-- A one-region, two-row dataset collection used for C8. -/
def datasetsC8 : Datasets :=
  [("USA",
    [{ industry := "Steel", region := "USA", firms := some 10,
       beta := some 1, de := some (1/2), tax := some (1/4),
       unlevered := some (4/5), unleveredCash := none },
     { industry := "Banking", region := "USA", firms := some 30,
       beta := some (3/2), de := some 1, tax := some (1/4),
       unlevered := some (9/10), unleveredCash := none }])]

/-- Counterexample to C8 as stated: with a queried list consisting only of
zero-match industries, `compare_sectors` does not "omit every zero-match
industry without error" — it raises while sorting the column-less empty frame.
-/
theorem c8_counterexample :
    compare_sectors datasetsC8 none ["Hovercraft"]
      = .error "KeyError: Average_Levered_Beta" := by
  rfl

/-- C8 (amended): provided at least one queried industry has at least one
match, `compare_sectors` returns exactly one summary row per industry with a
match (a permutation of the per-industry summaries, zero-match industries
omitted), sorted descending by aggregate beta with missing betas last. -/
theorem c8_comparison_rows_sorted (datasets : Datasets)
    (target : Option (ℚ × ℚ)) (sector_names : List String)
    (h : sector_names.filterMap (summaryRow datasets target) ≠ []) :
    ∃ out, compare_sectors datasets target sector_names = .ok out ∧
      out.Perm (sector_names.filterMap (summaryRow datasets target)) ∧
      out.Sorted compDesc := by
  refine ⟨(sector_names.filterMap (summaryRow datasets target)).insertionSort
    compDesc, ?_, ?_, ?_⟩
  · unfold compare_sectors
    rw [if_neg h]
  · exact List.perm_insertionSort compDesc _
  · exact List.sorted_insertionSort compDesc _

/-- Witness for C8: both industries of `datasetsC8` plus a zero-match name. -/
theorem c8_comparison_rows_sorted_witness :
    ∃ out, compare_sectors datasetsC8 none ["Steel", "Hovercraft", "Banking"]
        = .ok out ∧
      out.Perm (["Steel", "Hovercraft", "Banking"].filterMap
        (summaryRow datasetsC8 none)) ∧
      out.Sorted compDesc :=
  c8_comparison_rows_sorted datasetsC8 none ["Steel", "Hovercraft", "Banking"]
    (by decide)

/-- Counterexample to C4 as stated: the textual column `["0.5%"]`.  The spec's
procedure (strip the suffix AND divide by 100, then divide again only if the
maximum still exceeds 1) would give `0.005`, but the code only strips the
suffix, and the resulting maximum `0.5` does not exceed 1, so no division ever
happens and the value stays `0.5`. -/
theorem c4_counterexample :
    parse_percent_column (.textual [some (1/2, true)]) = [some (1/2)] ∧
    spec_percent_column (.textual [some (1/2, true)]) = [some (1/200)] := by
  constructor
  · norm_num [parse_percent_column, stripAndCoerce, colMax, List.filterMap_cons]
  · norm_num [spec_percent_column, colMax, List.filterMap_cons]

/-- C4 (amended): during ingestion the percent suffix of a textual
percentage-like column is stripped WITHOUT dividing by 100 — a textual column
parses exactly like the numeric column of its pre-suffix numerals — and then,
if the column's maximum numeric value exceeds 1, every value in the column is
divided by 100 exactly once (an all-missing column is left untouched, since
the pandas comparison `NaN > 1` is false). -/
theorem c4_percent_strip_then_single_division :
    (∀ cells : List (Option (ℚ × Bool)),
        parse_percent_column (.textual cells)
          = parse_percent_column (.numeric (cells.map (Option.map Prod.fst)))) ∧
    (∀ cs : List (Option ℚ), ∀ m : ℚ, colMax cs = some m →
        parse_percent_column (.numeric cs)
          = if 1 < m then cs.map (Option.map (· / 100)) else cs) ∧
    (∀ cs : List (Option ℚ), colMax cs = none →
        parse_percent_column (.numeric cs) = cs) := by
  refine ⟨fun cells => rfl, fun cs m h => ?_, fun cs h => ?_⟩
  · dsimp only [parse_percent_column, stripAndCoerce]
    rw [h]
  · dsimp only [parse_percent_column, stripAndCoerce]
    rw [h]

/-- Witness for C4 (amended) on the textual column `["50%", "0.3"]`: the
stripped maximum is 50, so every value is divided by 100 once. -/
theorem c4_percent_strip_then_single_division_witness :
    parse_percent_column (.textual [some (50, true), some (3/10, false)])
      = [some (1/2), some (3/1000)] := by
  have h1 := c4_percent_strip_then_single_division.1
    [some ((50 : ℚ), true), some ((3/10 : ℚ), false)]
  have hmax : colMax [some (50 : ℚ), some (3/10 : ℚ)] = some 50 := by
    norm_num [colMax, List.filterMap_cons, max_eq_left]
  have h2 := c4_percent_strip_then_single_division.2.1
    [some (50 : ℚ), some (3/10 : ℚ)] 50 hmax
  rw [h1]
  show parse_percent_column (.numeric [some (50 : ℚ), some (3/10 : ℚ)])
    = [some (1/2), some (3/1000)]
  rw [h2]
  norm_num

/-- An analysis row carrying only an original levered beta and a firm count
(what `analyze_sector` produces for a no-target call, up to the label
columns). -/
def plainAnalysisRow (beta firms : Option ℚ) : AnalysisRow :=
  { sector := "S", region := "R", firms := firms,
    beta_levered_original := beta, de_original := none, tax_original := none,
    beta_unlevered := none, beta_unlevered_cash := none,
    beta_levered_target := none, de_target := none, tax_target := none }

/-- The original levered betas of the rows whose firm count is present — the
betas `calculate_weighted_average_beta` actually keeps after its `dropna`. -/
def presentWeightBetas (g : List AnalysisRow) : List ℚ :=
  g.filterMap (fun r =>
    match r.beta_levered_original, r.firms with
    | some b, some _ => some b
    | _, _ => none)

/-- When no row carries a target beta, the beta column chosen by
`calculate_weighted_average_beta` is the original one. -/
theorem chosenBeta_eq_original (g : List AnalysisRow)
    (htg : ∀ r ∈ g, r.beta_levered_target = none) (r : AnalysisRow) :
    chosenBeta g r = r.beta_levered_original := by
  have hany : g.any (fun a => a.beta_levered_target.isSome) = false := by
    rw [List.any_eq_false]
    intro a ha
    simp [htg a ha]
  simp [chosenBeta, hany]

/-- Membership in the `dropna` result characterised on the raw pairs. -/
theorem mem_dropna2 (rows : List (Option ℚ × Option ℚ)) (p : ℚ × ℚ) :
    p ∈ dropna2 rows ↔ (some p.1, some p.2) ∈ rows := by
  unfold dropna2
  rw [List.mem_filterMap]
  constructor
  · rintro ⟨⟨qb, qw⟩, hq, hmatch⟩
    cases qb <;> cases qw <;> simp at hmatch
    rcases p with ⟨pb, pw⟩
    simp at hmatch
    obtain ⟨h1, h2⟩ := hmatch
    subst h1
    subst h2
    exact hq
  · intro h
    exact ⟨(some p.1, some p.2), h, rfl⟩

/-- The betas surviving the `dropna` of `calculate_weighted_average_beta` on
original-beta pairs are exactly `presentWeightBetas`. -/
theorem dropna2_fst (g : List AnalysisRow) :
    (dropna2 (g.map (fun r => (r.beta_levered_original, r.firms)))).map
        Prod.fst
      = presentWeightBetas g := by
  induction g with
  | nil => rfl
  | cons a t ih =>
    dsimp only [dropna2, presentWeightBetas] at *
    rw [List.map_cons, List.filterMap_cons, List.filterMap_cons]
    rw [List.filterMap_map] at ih
    cases a.beta_levered_original <;> cases a.firms <;>
      simp only [List.filterMap_map] <;> simp [ih]

/-- C1 (amended): when a group's total firm-count weight (missing treated as
0) is 0, the `agg_fun` of `beta_settoriale.py` returns the simple mean of ALL
non-missing betas, as the claim states; but `calculate_weighted_average_beta`
of `beta-analysis-script.py` drops rows with missing firm count before
averaging, so its fallback is the simple mean of the betas whose firm count is
present (and it returns missing when no row has both cells).  Neither path
raises a division-by-zero error. -/
theorem c1_zero_weight_fallback (g : List AnalysisRow) (sg : List SettRecord)
    (htg : ∀ r ∈ g, r.beta_levered_target = none)
    (hwg : ∀ r ∈ g, 0 ≤ fillnaWeight r.firms)
    (hg0 : (g.map (fun r => fillnaWeight r.firms)).sum = 0)
    (hs0 : (sg.map (fun r => fillnaWeight r.firms)).sum = 0) :
    agg_fun true sg = simpleMean (settBetas sg) ∧
    calculate_weighted_average_beta g = simpleMean (presentWeightBetas g) := by
  constructor
  · have hneg : ¬ (0 < (settWeights sg).sum) := by
      have hz : (settWeights sg).sum = 0 := hs0
      rw [hz]
      exact lt_irrefl 0
    simp [agg_fun, hneg]
  · have hmap : g.map (fun r => (chosenBeta g r, r.firms))
        = g.map (fun r => (r.beta_levered_original, r.firms)) :=
      List.map_congr_left (fun r _ => by rw [chosenBeta_eq_original g htg])
    unfold calculate_weighted_average_beta
    rw [hmap]
    have hzero : ∀ r ∈ g, fillnaWeight r.firms = 0 := by
      intro r hr
      exact List.all_zero_of_le_zero_le_of_sum_eq_zero
        (by
          intro x hx
          obtain ⟨r', hr', rfl⟩ := List.mem_map.mp hx
          exact hwg r' hr')
        hg0 (List.mem_map_of_mem _ hr)
    have hwsum :
        ((dropna2 (g.map (fun r => (r.beta_levered_original, r.firms)))).map
          Prod.snd).sum = 0 := by
      apply List.sum_eq_zero
      intro w hw
      rw [List.mem_map] at hw
      obtain ⟨p, hp, rfl⟩ := hw
      rw [mem_dropna2, List.mem_map] at hp
      obtain ⟨r, hr, heq⟩ := hp
      have hf : r.firms = some p.2 := congrArg Prod.snd heq
      have h0 := hzero r hr
      rw [hf] at h0
      simpa [fillnaWeight] using h0
    unfold weighted_average_core
    by_cases hv : dropna2 (g.map (fun r => (r.beta_levered_original, r.firms))) = []
    · have hpw : presentWeightBetas g = [] := by
        rw [← dropna2_fst g, hv]
        rfl
      simp [hv, hpw, simpleMean]
    · have hneg : ¬ (0 <
          ((dropna2 (g.map (fun r => (r.beta_levered_original, r.firms)))).map
            Prod.snd).sum) := by
        rw [hwsum]
        exact lt_irrefl 0
      simp only [hv, if_neg, hneg, ite_false]
      rw [dropna2_fst]

/-- Witness for C1 (amended): a group whose weights are 0 or missing.
`agg_fun` averages both betas (mean 3), while
`calculate_weighted_average_beta` keeps only the beta whose firm count is
present (mean 2). -/
theorem c1_zero_weight_fallback_witness :
    agg_fun true
        [{ industry := "Steel", beta := some 2, firms := some 0,
           year := 2023, geography := "US" },
         { industry := "Steel", beta := some 4, firms := none,
           year := 2023, geography := "US" }]
      = simpleMean (settBetas
        [{ industry := "Steel", beta := some 2, firms := some 0,
           year := 2023, geography := "US" },
         { industry := "Steel", beta := some 4, firms := none,
           year := 2023, geography := "US" }]) ∧
    calculate_weighted_average_beta
        [plainAnalysisRow (some 2) (some 0), plainAnalysisRow (some 4) none]
      = simpleMean (presentWeightBetas
        [plainAnalysisRow (some 2) (some 0), plainAnalysisRow (some 4) none]) :=
  c1_zero_weight_fallback
    [plainAnalysisRow (some 2) (some 0), plainAnalysisRow (some 4) none]
    [{ industry := "Steel", beta := some 2, firms := some 0,
       year := 2023, geography := "US" },
     { industry := "Steel", beta := some 4, firms := none,
       year := 2023, geography := "US" }]
    (by
      intro r hr
      fin_cases hr <;> rfl)
    (by
      intro r hr
      fin_cases hr <;> norm_num [plainAnalysisRow, fillnaWeight])
    (by norm_num [plainAnalysisRow, fillnaWeight])
    (by norm_num [fillnaWeight])

/-- Counterexample to C1 as stated: the one-row group `[(beta 3, firms
missing)]`.  Its total weight with missing treated as 0 is 0 and its
non-missing betas have simple mean 3, so the claim predicts 3; but
`calculate_weighted_average_beta` drops the row at its `dropna` and returns
missing. -/
theorem c1_counterexample :
    calculate_weighted_average_beta [plainAnalysisRow (some 3) none] = none ∧
    ([plainAnalysisRow (some 3) none].map
      (fun r => fillnaWeight r.firms)).sum = 0 ∧
    simpleMean ([plainAnalysisRow (some 3) none].filterMap
      (·.beta_levered_original)) = some 3 := by
  refine ⟨rfl, by norm_num [plainAnalysisRow, fillnaWeight], ?_⟩
  norm_num [simpleMean, plainAnalysisRow, List.filterMap_cons]

/-- Counterexample to C6 as stated: the one-row group `[(beta 1, firms
missing)]` contains a non-missing levered beta, yet
`calculate_weighted_average_beta` returns missing (its `dropna` removes the
row), so the computed average does not lie between the minimum and maximum
non-missing beta — no value is computed at all. -/
theorem c6_counterexample :
    calculate_weighted_average_beta [plainAnalysisRow (some 1) none] = none ∧
    [plainAnalysisRow (some 1) none].filterMap (·.beta_levered_original)
      = [1] :=
  ⟨rfl, rfl⟩

/-- The pairs built by the weighted branch of `agg_fun` come from records with
a present beta, and carry that record's `fillna(0)` weight. -/
theorem settPairs_spec (sg : List SettRecord) (p : ℚ × ℚ)
    (hp : p ∈ sg.filterMap
      (fun r => r.beta.map (fun b => (b, fillnaWeight r.firms)))) :
    ∃ r ∈ sg, r.beta = some p.1 ∧ p.2 = fillnaWeight r.firms := by
  rw [List.mem_filterMap] at hp
  obtain ⟨r, hr, heq⟩ := hp
  cases hbeta : r.beta with
  | none =>
    rw [hbeta] at heq
    simp at heq
  | some b =>
    rw [hbeta] at heq
    obtain ⟨pb, pw⟩ := p
    simp at heq
    obtain ⟨h1, h2⟩ := heq
    exact ⟨r, hr, by rw [hbeta, h1], h2.symm⟩

/-- Every beta kept by the `dropna` of `calculate_weighted_average_beta` is a
non-missing original beta of the group. -/
theorem presentWeightBetas_sub (g : List AnalysisRow) (x : ℚ)
    (hx : x ∈ presentWeightBetas g) :
    x ∈ g.filterMap (·.beta_levered_original) := by
  rw [presentWeightBetas, List.mem_filterMap] at hx
  obtain ⟨r, hr, heq⟩ := hx
  rw [List.mem_filterMap]
  refine ⟨r, hr, ?_⟩
  cases hb : r.beta_levered_original <;> cases hf : r.firms <;>
    rw [hb, hf] at heq <;> simp at heq
  · rw [heq]

/-- C6 (amended): whenever the aggregation computes a non-missing average —
`agg_fun` of `beta_settoriale.py` (simple or firm-count-weighted) or
`calculate_weighted_average_beta` of `beta-analysis-script.py` — that average
lies between two non-missing levered betas of the group (hence between their
minimum and maximum).  The weighted paths can instead return missing even when
a non-missing beta exists (see the counterexample), which is the only failure
mode of the claim as stated. -/
theorem c6_mean_bounding (weight_by_firms : Bool) (sg : List SettRecord)
    (g : List AnalysisRow) (m m' : ℚ)
    (hws : ∀ r ∈ sg, 0 ≤ fillnaWeight r.firms)
    (hwg : ∀ r ∈ g, 0 ≤ fillnaWeight r.firms)
    (htg : ∀ r ∈ g, r.beta_levered_target = none) :
    (agg_fun weight_by_firms sg = some m →
      ∃ bl ∈ settBetas sg, bl ≤ m ∧ ∃ bu ∈ settBetas sg, m ≤ bu) ∧
    (calculate_weighted_average_beta g = some m' →
      ∃ bl ∈ g.filterMap (·.beta_levered_original), bl ≤ m' ∧
      ∃ bu ∈ g.filterMap (·.beta_levered_original), m' ≤ bu) := by
  constructor
  · intro h
    unfold agg_fun at h
    split at h
    · exact simpleMean_bounds _ m h
    · split at h
      · split at h
        · exact absurd h (by simp)
        · rename_i hpos hden
          have hpw : ∀ p ∈ sg.filterMap
              (fun r => r.beta.map (fun b => (b, fillnaWeight r.firms))),
              0 ≤ p.2 := by
            intro p hp
            obtain ⟨r, hr, _, hw⟩ := settPairs_spec sg p hp
            rw [hw]
            exact hws r hr
          have hdpos : 0 < ((settPairs sg).map Prod.snd).sum := by
            rcases lt_or_eq_of_le (List.sum_nonneg (by
              intro x hx
              obtain ⟨p, hp, rfl⟩ := List.mem_map.mp hx
              exact hpw p hp)) with hlt | heq
            · exact hlt
            · exact absurd heq.symm hden
          have hval : m = (((settPairs sg).map (fun p => p.1 * p.2)).sum) /
              (((settPairs sg).map Prod.snd).sum) := by
            injection h with h'
            exact h'.symm
          obtain ⟨bl, hblm, hbl, bu, hbum, hbu⟩ :=
            weighted_mean_bounds _ m hpw hdpos hval
          obtain ⟨pl, hpl, rfl⟩ := List.mem_map.mp hblm
          obtain ⟨pu, hpu, rfl⟩ := List.mem_map.mp hbum
          obtain ⟨rl, hrl, hrlb, _⟩ := settPairs_spec sg pl hpl
          obtain ⟨ru, hru, hrub, _⟩ := settPairs_spec sg pu hpu
          refine ⟨pl.1, ?_, hbl, pu.1, ?_, hbu⟩
          · exact List.mem_filterMap.mpr ⟨rl, hrl, hrlb⟩
          · exact List.mem_filterMap.mpr ⟨ru, hru, hrub⟩
      · exact simpleMean_bounds _ m h
  · intro h
    have hmap : g.map (fun r => (chosenBeta g r, r.firms))
        = g.map (fun r => (r.beta_levered_original, r.firms)) :=
      List.map_congr_left (fun r _ => by rw [chosenBeta_eq_original g htg])
    unfold calculate_weighted_average_beta at h
    rw [hmap] at h
    unfold weighted_average_core at h
    split at h
    · exact absurd h (by simp)
    · split at h
      · rename_i hv hpos
        have hpw : ∀ p ∈ dropna2
            (g.map (fun r => (r.beta_levered_original, r.firms))), 0 ≤ p.2 := by
          intro p hp
          rw [mem_dropna2, List.mem_map] at hp
          obtain ⟨r, hr, heq⟩ := hp
          have hf : r.firms = some p.2 := congrArg Prod.snd heq
          have := hwg r hr
          rw [hf] at this
          simpa [fillnaWeight] using this
        have hval : m' = (((dropna2
            (g.map (fun r => (r.beta_levered_original, r.firms)))).map
              (fun p => p.1 * p.2)).sum) /
            (((dropna2
              (g.map (fun r => (r.beta_levered_original, r.firms)))).map
                Prod.snd).sum) := by
          injection h with h'
          exact h'.symm
        obtain ⟨bl, hblm, hbl, bu, hbum, hbu⟩ :=
          weighted_mean_bounds _ m' hpw hpos hval
        rw [dropna2_fst] at hblm hbum
        exact ⟨bl, presentWeightBetas_sub g bl hblm, hbl,
          bu, presentWeightBetas_sub g bu hbum, hbu⟩
      · obtain ⟨bl, hblm, hbl, bu, hbum, hbu⟩ := simpleMean_bounds _ m' h
        rw [dropna2_fst] at hblm hbum
        exact ⟨bl, presentWeightBetas_sub g bl hblm, hbl,
          bu, presentWeightBetas_sub g bu hbum, hbu⟩

/-- The one-record group used by the C6 witness. -/
def sgC6 : List SettRecord :=
  [{ industry := "Steel", beta := some 2, firms := some 1,
     year := 2023, geography := "US" }]

/-- The one-row analysis group used by the C6 witness. -/
def gC6 : List AnalysisRow := [plainAnalysisRow (some 3) (some 5)]

/-- Witness for C6 (amended): on concrete one-row groups both aggregation
paths produce a value bounded by members of the group. -/
theorem c6_mean_bounding_witness :
    (∃ bl ∈ settBetas sgC6, bl ≤ 2 ∧ ∃ bu ∈ settBetas sgC6, 2 ≤ bu) ∧
    (∃ bl ∈ gC6.filterMap (·.beta_levered_original), bl ≤ 3 ∧
      ∃ bu ∈ gC6.filterMap (·.beta_levered_original), 3 ≤ bu) := by
  have h := c6_mean_bounding true sgC6 gC6 2 3
    (by
      intro r hr
      fin_cases hr
      norm_num [fillnaWeight, sgC6])
    (by
      intro r hr
      fin_cases hr
      norm_num [fillnaWeight, gC6, plainAnalysisRow])
    (by
      intro r hr
      fin_cases hr
      rfl)
  refine ⟨h.1 ?_, h.2 ?_⟩
  · norm_num [agg_fun, settWeights, settPairs, sgC6, fillnaWeight,
      List.filterMap_cons]
  · norm_num [calculate_weighted_average_beta, weighted_average_core,
      chosenBeta, dropna2, gC6, plainAnalysisRow, List.filterMap_cons]
